import Mathlib

/-!
Verification of the field-access core of the `binary-layout` crate.

The repository source provides `src/fields/primitive/view.rs`: the
`FieldView<S, F>` wrapper that binds a storage instance to a field marker
and delegates every operation to the static `Field` trait implementation
(`F::read`, `F::write`, `F::try_read`, `F::try_write`).

The trait implementations themselves (primitive integer fields and
domain-restricted fields) are declared elsewhere in the crate, so they are
modelled here from the specification: little/big endian byte encoding of a
`size`-byte integer at byte `offset`, bounds handling (a buffer shorter
than `offset + size` makes the infallible accessors abort, modelled as
`Option.none`), and domain validation for fallible (`FieldCopyAccess`)
fields which validates before committing any bytes.

Buffers are `List Nat` of byte values; machine integers are `Nat` with
explicit `% 256 ^ size` where truncation matters.
-/

/-- Modelled from the spec: the layout's declared byte order
(`LittleEndian` / `BigEndian` in the crate; the endianness type is not
under `src/`). -/
inductive ByteOrder where
  | little : ByteOrder
  | big : ByteOrder
deriving DecidableEq, Repr

/-- Modelled from the spec: little-endian decoding of a byte list into a
natural number (`from_le_bytes`; the primitive field codecs are not under
`src/`). -/
def decodeLE : List Nat → Nat
  | [] => 0
  | b :: bs => b + 256 * decodeLE bs

/-- Modelled from the spec: little-endian encoding of `v` into `w` bytes
(`to_le_bytes`; the primitive field codecs are not under `src/`). -/
def encodeLE : Nat → Nat → List Nat
  | 0, _ => []
  | w + 1, v => (v % 256) :: encodeLE w (v / 256)

/-- Modelled from the spec: decoding under a declared byte order; big
endian reads the bytes most-significant first. -/
def decodeBO (bo : ByteOrder) (bs : List Nat) : Nat :=
  match bo with
  | ByteOrder.little => decodeLE bs
  | ByteOrder.big => decodeLE bs.reverse

/-- Modelled from the spec: encoding under a declared byte order. -/
def encodeBO (bo : ByteOrder) (w v : Nat) : List Nat :=
  match bo with
  | ByteOrder.little => encodeLE w v
  | ByteOrder.big => (encodeLE w v).reverse

/-- The `size`-byte slice of a buffer starting at `offset`
(`&data[offset..offset+size]`). -/
def sliceAt (data : List Nat) (offset size : Nat) : List Nat :=
  (data.drop offset).take size

/-- Replacing the bytes starting at `offset` with `bs`
(`data[offset..offset+bs.len()].copy_from_slice(bs)`). -/
def writeBytes (data : List Nat) (offset : Nat) (bs : List Nat) : List Nat :=
  data.take offset ++ (bs ++ data.drop (offset + bs.length))

theorem encodeLE_length (w v : Nat) : (encodeLE w v).length = w := by
  induction w generalizing v with
  | zero => rfl
  | succ w ih => simp [encodeLE, ih]

theorem encodeBO_length (bo : ByteOrder) (w v : Nat) :
    (encodeBO bo w v).length = w := by
  cases bo <;> simp [encodeBO, encodeLE_length]

theorem decodeLE_encodeLE (w v : Nat) :
    decodeLE (encodeLE w v) = v % 256 ^ w := by
  induction w generalizing v with
  | zero => simp [encodeLE, decodeLE, Nat.mod_one]
  | succ w ih =>
    simp only [encodeLE, decodeLE, ih]
    rw [pow_succ, Nat.mul_comm (256 ^ w) 256, Nat.mod_mul]

theorem decodeBO_encodeBO (bo : ByteOrder) (w v : Nat) :
    decodeBO bo (encodeBO bo w v) = v % 256 ^ w := by
  cases bo <;>
    simp [decodeBO, encodeBO, List.reverse_reverse, decodeLE_encodeLE]

theorem writeBytes_length (data : List Nat) (offset : Nat) (bs : List Nat)
    (h : offset + bs.length ≤ data.length) :
    (writeBytes data offset bs).length = data.length := by
  simp only [writeBytes, List.length_append, List.length_take,
    List.length_drop]
  omega

theorem sliceAt_writeBytes (data : List Nat) (offset : Nat) (bs : List Nat)
    (h : offset + bs.length ≤ data.length) :
    sliceAt (writeBytes data offset bs) offset bs.length = bs := by
  have htk : (data.take offset).length = offset := by
    simp only [List.length_take]; omega
  simp only [writeBytes, sliceAt]
  rw [List.drop_left' htk, List.take_left' rfl]

theorem writeBytes_getElem?_lt (data : List Nat) (offset : Nat)
    (bs : List Nat) (i : Nat) (h : offset ≤ data.length) (hi : i < offset) :
    (writeBytes data offset bs)[i]? = data[i]? := by
  have h1 : i < (data.take offset).length := by
    simp only [List.length_take]; omega
  simp only [writeBytes]
  rw [List.getElem?_append, if_pos h1, List.getElem?_take, if_pos hi]

theorem writeBytes_getElem?_ge (data : List Nat) (offset : Nat)
    (bs : List Nat) (i : Nat) (h : offset + bs.length ≤ data.length)
    (hi : offset + bs.length ≤ i) :
    (writeBytes data offset bs)[i]? = data[i]? := by
  have h1 : ¬ i < (data.take offset).length := by
    simp only [List.length_take]; omega
  have h2 : ¬ i - (data.take offset).length < bs.length := by
    simp only [List.length_take]; omega
  simp only [writeBytes]
  rw [List.getElem?_append, if_neg h1, List.getElem?_append, if_neg h2,
    List.getElem?_drop]
  congr 1
  simp only [List.length_take]
  omega

/-! ## Field metadata and capability operations (modelled from the spec) -/

/-- Modelled from the spec: metadata of a bounded primitive integer field
implementing `FieldReadExt`/`FieldWriteExt` (the crate's `PrimitiveField`
and its trait impls are not under `src/`): a byte offset, a byte size and
the layout's declared byte order. -/
structure PrimitiveField where
  offset : Nat
  size : Nat
  byteOrder : ByteOrder
deriving DecidableEq, Repr

/-- Modelled from the spec: `FieldReadExt::read` for a primitive integer
field (not under `src/`). Total over the byte domain, but aborts (`none`)
when the buffer is shorter than `offset + size`; otherwise decodes the
`size` bytes at `offset` with the declared byte order. -/
def PrimitiveField.read (f : PrimitiveField) (data : List Nat) :
    Option Nat :=
  if f.offset + f.size ≤ data.length then
    some (decodeBO f.byteOrder (sliceAt data f.offset f.size))
  else
    none

/-- Modelled from the spec: `FieldWriteExt::write` for a primitive integer
field (not under `src/`). Aborts (`none`) when the buffer is shorter than
`offset + size`; otherwise overwrites exactly `size` bytes at `offset`
with the value encoded in the declared byte order, returning the updated
buffer (state passing for in-place mutation). -/
def PrimitiveField.write (f : PrimitiveField) (data : List Nat) (v : Nat) :
    Option (List Nat) :=
  if f.offset + f.size ≤ data.length then
    some (writeBytes data f.offset (encodeBO f.byteOrder f.size v))
  else
    none

/-- Modelled from the spec: the domain-specific read-error kind of a
fallible field (e.g. `NonZeroIsZeroError`; not under `src/`). -/
inductive ReadError where
  | invalidValue : ReadError
deriving DecidableEq, Repr

/-- Modelled from the spec: the domain-specific write-error kind of a
fallible field (not under `src/`). -/
inductive WriteError where
  | invalidValue : WriteError
deriving DecidableEq, Repr

/-- Modelled from the spec: metadata of a bounded domain-restricted field
implementing `FieldCopyAccess` (not under `src/`): offset, size, byte
order, plus the decidable domain of valid logical values (e.g.
`fun v => v != 0` for a non-zero integer field). -/
structure CopyField where
  offset : Nat
  size : Nat
  byteOrder : ByteOrder
  valid : Nat → Bool

/-- Modelled from the spec: `FieldCopyAccess::try_read` (not under
`src/`). Aborts (`none`) on a too-short buffer; otherwise decodes the
bytes with the declared byte order — which cannot itself fail — and then
validates the domain, returning the domain-specific error on an invalid
bit pattern. -/
def CopyField.try_read (f : CopyField) (data : List Nat) :
    Option (Except ReadError Nat) :=
  if f.offset + f.size ≤ data.length then
    let v := decodeBO f.byteOrder (sliceAt data f.offset f.size)
    some (if f.valid v then Except.ok v else Except.error ReadError.invalidValue)
  else
    none

/-- Modelled from the spec: `FieldCopyAccess::try_write` (not under
`src/`). Aborts (`none`) on a too-short buffer; otherwise validates the
logical value before any byte is committed: on an invalid value it
returns the domain-specific error and the untouched buffer, on a valid
value it overwrites exactly `size` bytes at `offset`. -/
def CopyField.try_write (f : CopyField) (data : List Nat) (v : Nat) :
    Option (Except WriteError Unit × List Nat) :=
  if f.offset + f.size ≤ data.length then
    some
      (if f.valid v then
        (Except.ok (), writeBytes data f.offset (encodeBO f.byteOrder f.size v))
      else
        (Except.error WriteError.invalidValue, data))
  else
    none

/-! ## Storage capabilities and the field view (from `src/fields/primitive/view.rs`) -/

/-- The `AsRef<[u8]>` capability of a storage kind: it can produce a
read-only byte slice. -/
class AsRefBytes (S : Type) where
  as_ref : S → List Nat

/-- The `AsMut<[u8]>` capability of a storage kind: it can produce a
mutable byte slice. `as_mut` reads the bytes behind the mutable slice and
`set_bytes` writes them back — the state-passing rendering of in-place
mutation through `&mut [u8]`. -/
class AsMutBytes (S : Type) where
  as_mut : S → List Nat
  set_bytes : S → List Nat → S

/-- A `Vec<u8>` / `&mut [u8]` storage is just its bytes. -/
instance listAsRefBytes : AsRefBytes (List Nat) where
  as_ref := id

instance listAsMutBytes : AsMutBytes (List Nat) where
  as_mut := id
  set_bytes := fun _ bytes => bytes

/-- `FieldView<S, F>` from `src/fields/primitive/view.rs:44`: a storage
instance paired with a phantom field marker. The Rust type-level field
marker `F` is rendered as a value-level index of the structure. -/
structure FieldView (S : Type) {FT : Type} (F : FT) where
  storage : S

/-- `FieldView::new` from `src/fields/primitive/view.rs:55`: binds a
storage instance to a field marker; no bounds check, no byte access. -/
def FieldView.new {S : Type} {FT : Type} {F : FT} (storage : S) :
    FieldView S F :=
  { storage := storage }

/-- `FieldView::read` from `src/fields/primitive/view.rs:81`:
`F::read(self.storage.as_ref())`. -/
def FieldView.read {S : Type} [AsRefBytes S] {f : PrimitiveField}
    (self : FieldView S f) : Option Nat :=
  f.read (AsRefBytes.as_ref self.storage)

/-- `FieldView::write` from `src/fields/primitive/view.rs:104`:
`F::write(self.storage.as_mut(), v)`, returning the view with the
mutated storage. -/
def FieldView.write {S : Type} [AsMutBytes S] {f : PrimitiveField}
    (self : FieldView S f) (v : Nat) : Option (FieldView S f) :=
  (f.write (AsMutBytes.as_mut self.storage) v).map
    (fun bytes => { storage := AsMutBytes.set_bytes self.storage bytes })

/-- `FieldView::try_read` from `src/fields/primitive/view.rs:129`:
`F::try_read(self.storage.as_ref())`. -/
def FieldView.try_read {S : Type} [AsRefBytes S] {f : CopyField}
    (self : FieldView S f) : Option (Except ReadError Nat) :=
  f.try_read (AsRefBytes.as_ref self.storage)

/-- `FieldView::try_write` from `src/fields/primitive/view.rs:156`:
`F::try_write(self.storage.as_mut(), v)`, returning the result together
with the view over the mutated storage. -/
def FieldView.try_write {S : Type} [AsMutBytes S] {f : CopyField}
    (self : FieldView S f) (v : Nat) :
    Option (Except WriteError Unit × FieldView S f) :=
  (f.try_write (AsMutBytes.as_mut self.storage) v).map
    (fun r => (r.1, { storage := AsMutBytes.set_bytes self.storage r.2 }))

/-! ## Field-level helper lemmas -/

theorem PrimitiveField.write_eq_some (f : PrimitiveField) (data : List Nat)
    (v : Nat) (hlen : f.offset + f.size ≤ data.length) :
    f.write data v =
      some (writeBytes data f.offset (encodeBO f.byteOrder f.size v)) := by
  simp [PrimitiveField.write, hlen]

theorem PrimitiveField.read_writeBytes (f : PrimitiveField)
    (data : List Nat) (v : Nat) (hlen : f.offset + f.size ≤ data.length) :
    f.read (writeBytes data f.offset (encodeBO f.byteOrder f.size v)) =
      some (v % 256 ^ f.size) := by
  have hblen := encodeBO_length f.byteOrder f.size v
  have hbs : f.offset + (encodeBO f.byteOrder f.size v).length ≤ data.length := by
    rw [hblen]; exact hlen
  have hlen2 := writeBytes_length data f.offset (encodeBO f.byteOrder f.size v) hbs
  have hslice := sliceAt_writeBytes data f.offset (encodeBO f.byteOrder f.size v) hbs
  rw [hblen] at hslice
  simp only [PrimitiveField.read]
  rw [if_pos (by rw [hlen2]; exact hlen), hslice, decodeBO_encodeBO]

/-! ## The claims -/

/-- C1: for every `FieldReadExt`/`FieldWriteExt` field, every logical
value `v` in the field's domain and every buffer long enough to hold the
field, writing `v` through a field view and then reading through a field
view over the same storage returns `v`. -/
theorem C1_view_write_read_roundtrip (f : PrimitiveField)
    (data : List Nat) (v : Nat) (hlen : f.offset + f.size ≤ data.length)
    (hv : v < 256 ^ f.size) :
    ((@FieldView.new (List Nat) PrimitiveField f data).write v).bind
      (fun view2 => view2.read) = some v := by
  show ((f.write data v).map
      (fun bytes => (⟨bytes⟩ : FieldView (List Nat) f))).bind
      (fun view2 => f.read view2.storage) = some v
  rw [PrimitiveField.write_eq_some f data v hlen]
  simp only [Option.map_some', Option.some_bind]
  rw [PrimitiveField.read_writeBytes f data v hlen, Nat.mod_eq_of_lt hv]

/-- Witness for C1 at a concrete input: a little-endian 2-byte field at
offset 1 in a 4-byte buffer, value `0x1234`. -/
theorem C1_view_write_read_roundtrip_witness :
    ((1 : Nat) + 2 ≤ ([0, 0, 0, 0] : List Nat).length ∧
      (4660 : Nat) < 256 ^ 2) ∧
    ((@FieldView.new (List Nat) PrimitiveField
        ⟨1, 2, ByteOrder.little⟩ [0, 0, 0, 0]).write 4660).bind
      (fun view2 => view2.read) = some 4660 :=
  ⟨⟨by decide, by decide⟩,
    C1_view_write_read_roundtrip ⟨1, 2, ByteOrder.little⟩ [0, 0, 0, 0]
      4660 (by decide) (by decide)⟩

/-- The frame property of a view write, shared by the offset-isolation
and byte-order claims: the write succeeds, preserves the length, leaves
bytes outside `[offset, offset+size)` untouched and stores the encoded
value at `offset`. -/
theorem view_write_frame (f : PrimitiveField)
    (data : List Nat) (v : Nat) (hlen : f.offset + f.size ≤ data.length) :
    ∃ view2 : FieldView (List Nat) f,
      (@FieldView.new (List Nat) PrimitiveField f data).write v = some view2 ∧
      view2.storage.length = data.length ∧
      (∀ i : Nat, i < f.offset ∨ f.offset + f.size ≤ i →
        view2.storage[i]? = data[i]?) ∧
      sliceAt view2.storage f.offset f.size = encodeBO f.byteOrder f.size v ∧
      (encodeBO f.byteOrder f.size v).length = f.size := by
  have hblen := encodeBO_length f.byteOrder f.size v
  have hbs : f.offset + (encodeBO f.byteOrder f.size v).length ≤
      data.length := by rw [hblen]; exact hlen
  refine ⟨⟨writeBytes data f.offset (encodeBO f.byteOrder f.size v)⟩,
    ?_, ?_, ?_, ?_, hblen⟩
  · show ((f.write data v).map
        (fun bytes => (⟨bytes⟩ : FieldView (List Nat) f))) = _
    rw [PrimitiveField.write_eq_some f data v hlen]
    rfl
  · exact writeBytes_length data f.offset _ hbs
  · intro i hi
    rcases hi with hi | hi
    · exact writeBytes_getElem?_lt data f.offset _ i (by omega) hi
    · exact writeBytes_getElem?_ge data f.offset _ i hbs
        (by rw [hblen]; exact hi)
  · have hs := sliceAt_writeBytes data f.offset _ hbs
    rw [hblen] at hs
    exact hs

/-- C2: writing a field through a view modifies only the bytes in
`[offset, offset+size)`: the buffer keeps its length, every byte outside
that range is unchanged, and exactly `size` bytes at `offset` are
overwritten with the encoded value. -/
theorem C2_write_touches_only_field_bytes (f : PrimitiveField)
    (data : List Nat) (v : Nat) (hlen : f.offset + f.size ≤ data.length) :
    ∃ view2 : FieldView (List Nat) f,
      (@FieldView.new (List Nat) PrimitiveField f data).write v = some view2 ∧
      view2.storage.length = data.length ∧
      (∀ i : Nat, i < f.offset ∨ f.offset + f.size ≤ i →
        view2.storage[i]? = data[i]?) ∧
      sliceAt view2.storage f.offset f.size = encodeBO f.byteOrder f.size v ∧
      (encodeBO f.byteOrder f.size v).length = f.size :=
  view_write_frame f data v hlen

/-- Witness for C2 at a concrete input: a little-endian 2-byte field at
offset 1 in a sentinel-filled 4-byte buffer. -/
theorem C2_write_touches_only_field_bytes_witness :
    ((1 : Nat) + 2 ≤ ([9, 9, 9, 9] : List Nat).length) ∧
    (∃ view2 : FieldView (List Nat)
        (⟨1, 2, ByteOrder.little⟩ : PrimitiveField),
      (@FieldView.new (List Nat) PrimitiveField
        ⟨1, 2, ByteOrder.little⟩ [9, 9, 9, 9]).write 4660 = some view2 ∧
      view2.storage.length = ([9, 9, 9, 9] : List Nat).length ∧
      (∀ i : Nat, i < 1 ∨ 1 + 2 ≤ i →
        view2.storage[i]? = ([9, 9, 9, 9] : List Nat)[i]?) ∧
      sliceAt view2.storage 1 2 = encodeBO ByteOrder.little 2 4660 ∧
      (encodeBO ByteOrder.little 2 4660).length = 2) :=
  ⟨by decide,
    C2_write_touches_only_field_bytes ⟨1, 2, ByteOrder.little⟩
      [9, 9, 9, 9] 4660 (by decide)⟩

/-- C3: when `try_write` on a field view returns a domain error, the
underlying buffer is left byte-for-byte unmodified — there is no
partial-write state. -/
theorem C3_try_write_error_leaves_buffer_unchanged (f : CopyField)
    (data : List Nat) (v : Nat) (e : WriteError)
    (view2 : FieldView (List Nat) f)
    (h : (@FieldView.new (List Nat) CopyField f data).try_write v =
      some (Except.error e, view2)) :
    view2.storage = data := by
  revert h
  show ((f.try_write data v).map
      (fun r => (r.1, (⟨r.2⟩ : FieldView (List Nat) f)))) =
      some (Except.error e, view2) → view2.storage = data
  simp only [CopyField.try_write]
  by_cases hlen : f.offset + f.size ≤ data.length
  · rw [if_pos hlen]
    by_cases hv : f.valid v = true
    · rw [if_pos hv]
      intro hcontra
      simp only [Option.map_some', Option.some.injEq, Prod.mk.injEq] at hcontra
      exact absurd hcontra.1 (by simp)
    · rw [if_neg hv]
      intro hh
      simp only [Option.map_some', Option.some.injEq, Prod.mk.injEq] at hh
      rw [← hh.2]
  · rw [if_neg hlen]
    intro hh
    simp at hh

/-- Witness for C3 at a concrete input: a one-byte non-zero field at
offset 0; `try_write 0` fails and the buffer `[7, 7]` is unchanged. -/
theorem C3_try_write_error_leaves_buffer_unchanged_witness :
    ((@FieldView.new (List Nat) CopyField
        ⟨0, 1, ByteOrder.little, fun v => v != 0⟩ [7, 7]).try_write 0 =
      some (Except.error WriteError.invalidValue,
        @FieldView.new (List Nat) CopyField
          ⟨0, 1, ByteOrder.little, fun v => v != 0⟩ [7, 7])) ∧
    (@FieldView.new (List Nat) CopyField
      ⟨0, 1, ByteOrder.little, fun v => v != 0⟩ [7, 7]).storage = [7, 7] :=
  ⟨rfl,
    C3_try_write_error_leaves_buffer_unchanged
      ⟨0, 1, ByteOrder.little, fun v => v != 0⟩ [7, 7] 0
      WriteError.invalidValue _ rfl⟩

/-- C4: writing `0x1234` to a 2-byte field places `[0x34, 0x12]` at the
field's offset under a little-endian layout and `[0x12, 0x34]` under a
big-endian layout; moreover every primitive multi-byte field
encodes/decodes uniformly with the layout's declared byte order. -/
theorem C4_byte_order_placement (offset : Nat) (data : List Nat)
    (hlen : offset + 2 ≤ data.length) :
    (∃ viewL : FieldView (List Nat)
        (⟨offset, 2, ByteOrder.little⟩ : PrimitiveField),
      (@FieldView.new (List Nat) PrimitiveField
        ⟨offset, 2, ByteOrder.little⟩ data).write 0x1234 = some viewL ∧
      sliceAt viewL.storage offset 2 = [0x34, 0x12]) ∧
    (∃ viewB : FieldView (List Nat)
        (⟨offset, 2, ByteOrder.big⟩ : PrimitiveField),
      (@FieldView.new (List Nat) PrimitiveField
        ⟨offset, 2, ByteOrder.big⟩ data).write 0x1234 = some viewB ∧
      sliceAt viewB.storage offset 2 = [0x12, 0x34]) ∧
    (∀ (f : PrimitiveField) (w : Nat),
      decodeBO f.byteOrder (encodeBO f.byteOrder f.size w) =
        w % 256 ^ f.size) := by
  refine ⟨?_, ?_, fun f w => decodeBO_encodeBO f.byteOrder f.size w⟩
  · obtain ⟨view2, hw, _, _, hs, _⟩ :=
      view_write_frame ⟨offset, 2, ByteOrder.little⟩ data 0x1234 hlen
    exact ⟨view2, hw, by rw [hs]; rfl⟩
  · obtain ⟨view2, hw, _, _, hs, _⟩ :=
      view_write_frame ⟨offset, 2, ByteOrder.big⟩ data 0x1234 hlen
    exact ⟨view2, hw, by rw [hs]; rfl⟩

/-- Witness for C4 at a concrete input: offset 1 in a 4-byte buffer. -/
theorem C4_byte_order_placement_witness :
    ((1 : Nat) + 2 ≤ ([0, 0, 0, 0] : List Nat).length) ∧
    ((∃ viewL : FieldView (List Nat)
        (⟨1, 2, ByteOrder.little⟩ : PrimitiveField),
      (@FieldView.new (List Nat) PrimitiveField
        ⟨1, 2, ByteOrder.little⟩ [0, 0, 0, 0]).write 0x1234 = some viewL ∧
      sliceAt viewL.storage 1 2 = [0x34, 0x12]) ∧
    (∃ viewB : FieldView (List Nat)
        (⟨1, 2, ByteOrder.big⟩ : PrimitiveField),
      (@FieldView.new (List Nat) PrimitiveField
        ⟨1, 2, ByteOrder.big⟩ [0, 0, 0, 0]).write 0x1234 = some viewB ∧
      sliceAt viewB.storage 1 2 = [0x12, 0x34]) ∧
    (∀ (f : PrimitiveField) (w : Nat),
      decodeBO f.byteOrder (encodeBO f.byteOrder f.size w) =
        w % 256 ^ f.size)) :=
  ⟨by decide, C4_byte_order_placement 1 [0, 0, 0, 0] (by decide)⟩

/-- C5: `read` through a field view aborts (returns no value) exactly
when the buffer is shorter than `offset + size`; on a buffer of at least
`offset + size` bytes it never fails. -/
theorem C5_read_aborts_iff_too_short (f : PrimitiveField)
    (data : List Nat) :
    (@FieldView.new (List Nat) PrimitiveField f data).read = none ↔
      data.length < f.offset + f.size := by
  show f.read data = none ↔ _
  simp only [PrimitiveField.read]
  rcases Nat.lt_or_ge data.length (f.offset + f.size) with h | h
  · rw [if_neg (by omega)]
    simp [h]
  · rw [if_pos h]
    simp
    omega

/-- C6: when `try_write` on a field view succeeds for a logical value `v`
in the field's domain, a subsequent `try_read` over the same storage
returns `Except.ok v`. -/
theorem C6_try_write_ok_then_try_read_ok (f : CopyField) (data : List Nat)
    (v : Nat) (hv : v < 256 ^ f.size) (view2 : FieldView (List Nat) f)
    (h : (@FieldView.new (List Nat) CopyField f data).try_write v =
      some (Except.ok (), view2)) :
    view2.try_read = some (Except.ok v) := by
  revert h
  show ((f.try_write data v).map
      (fun r => (r.1, (⟨r.2⟩ : FieldView (List Nat) f)))) =
      some (Except.ok (), view2) → _
  simp only [CopyField.try_write]
  by_cases hlen : f.offset + f.size ≤ data.length
  · rw [if_pos hlen]
    by_cases hvv : f.valid v = true
    · rw [if_pos hvv]
      intro hh
      simp only [Option.map_some', Option.some.injEq, Prod.mk.injEq] at hh
      have hst : view2.storage =
          writeBytes data f.offset (encodeBO f.byteOrder f.size v) := by
        rw [← hh.2]
      show f.try_read view2.storage = some (Except.ok v)
      rw [hst]
      have hblen := encodeBO_length f.byteOrder f.size v
      have hbs : f.offset + (encodeBO f.byteOrder f.size v).length ≤
          data.length := by rw [hblen]; exact hlen
      have hlen2 := writeBytes_length data f.offset _ hbs
      have hs := sliceAt_writeBytes data f.offset _ hbs
      rw [hblen] at hs
      simp only [CopyField.try_read]
      rw [if_pos (by rw [hlen2]; exact hlen), hs, decodeBO_encodeBO,
        Nat.mod_eq_of_lt hv, if_pos hvv]
    · rw [if_neg hvv]
      intro hh
      simp only [Option.map_some', Option.some.injEq, Prod.mk.injEq] at hh
      exact absurd hh.1 (by simp)
  · rw [if_neg hlen]
    intro hh
    simp at hh

/-- Witness for C6 at a concrete input: a one-byte non-zero field at
offset 0 in the buffer `[7, 7]`, value 5. -/
theorem C6_try_write_ok_then_try_read_ok_witness :
    ((5 : Nat) < 256 ^ 1 ∧
      (@FieldView.new (List Nat) CopyField
        ⟨0, 1, ByteOrder.little, fun v => v != 0⟩ [7, 7]).try_write 5 =
      some (Except.ok (),
        @FieldView.new (List Nat) CopyField
          ⟨0, 1, ByteOrder.little, fun v => v != 0⟩ [5, 7])) ∧
    (@FieldView.new (List Nat) CopyField
      ⟨0, 1, ByteOrder.little, fun v => v != 0⟩ [5, 7]).try_read =
      some (Except.ok 5) :=
  ⟨⟨by decide, rfl⟩,
    C6_try_write_ok_then_try_read_ok
      ⟨0, 1, ByteOrder.little, fun v => v != 0⟩ [7, 7] 5 (by decide) _ rfl⟩

/-- C7: on a sufficiently long buffer, `try_read` through a field view
returns the domain-specific error exactly when the decoded bit pattern
lies outside the field's domain, and returns `Except.ok` of the decoded
value otherwise — decoding itself never fails. -/
theorem C7_try_read_error_iff_invalid_pattern (f : CopyField)
    (data : List Nat) (hlen : f.offset + f.size ≤ data.length) :
    ((@FieldView.new (List Nat) CopyField f data).try_read =
        some (Except.error ReadError.invalidValue) ↔
      f.valid (decodeBO f.byteOrder (sliceAt data f.offset f.size)) =
        false) ∧
    (f.valid (decodeBO f.byteOrder (sliceAt data f.offset f.size)) =
        true →
      (@FieldView.new (List Nat) CopyField f data).try_read =
        some (Except.ok
          (decodeBO f.byteOrder (sliceAt data f.offset f.size)))) := by
  have hshow : (@FieldView.new (List Nat) CopyField f data).try_read =
      f.try_read data := rfl
  rw [hshow]
  simp only [CopyField.try_read, if_pos hlen]
  constructor
  · by_cases hv : f.valid
        (decodeBO f.byteOrder (sliceAt data f.offset f.size)) = true
    · rw [if_pos hv]
      simp [hv]
    · rw [if_neg hv]
      simp only [Bool.not_eq_true] at hv
      simp [hv]
  · intro hv
    rw [if_pos hv]

/-- Witness for C7 at a concrete input: a one-byte non-zero field over
the buffer `[0, 9]`, whose byte 0 is the invalid pattern. -/
theorem C7_try_read_error_iff_invalid_pattern_witness :
    ((0 : Nat) + 1 ≤ ([0, 9] : List Nat).length) ∧
    (((@FieldView.new (List Nat) CopyField
        ⟨0, 1, ByteOrder.little, fun v => v != 0⟩ [0, 9]).try_read =
        some (Except.error ReadError.invalidValue) ↔
      ((decodeBO ByteOrder.little (sliceAt [0, 9] 0 1) != 0) = false)) ∧
    ((decodeBO ByteOrder.little (sliceAt [0, 9] 0 1) != 0) = true →
      (@FieldView.new (List Nat) CopyField
        ⟨0, 1, ByteOrder.little, fun v => v != 0⟩ [0, 9]).try_read =
        some (Except.ok (decodeBO ByteOrder.little (sliceAt [0, 9] 0 1))))) :=
  ⟨by decide,
    C7_try_read_error_iff_invalid_pattern
      ⟨0, 1, ByteOrder.little, fun v => v != 0⟩ [0, 9] (by decide)⟩

/-- C8: `FieldView::new` always succeeds, does not inspect the buffer
and leaves the storage unchanged: it is total over an arbitrary storage
type `S` — about which it has no byte-access capability at all — and
binds exactly the given storage instance. -/
theorem C8_new_total_and_preserves_storage (S : Type) (FT : Type)
    (F : FT) (s : S) :
    (@FieldView.new S FT F s).storage = s := rfl

/-- C10: each `FieldView` operation is exactly the corresponding static
`Field`-trait operation applied to the view's byte slice: the view API
and the pass-the-buffer `Field` API are observationally equivalent. -/
theorem C10_view_equals_field_api (S : Type) [AsRefBytes S]
    [AsMutBytes S] (f : PrimitiveField) (g : CopyField) (s : S)
    (v : Nat) :
    (@FieldView.new S PrimitiveField f s).read =
      f.read (AsRefBytes.as_ref s) ∧
    ((@FieldView.new S PrimitiveField f s).write v).map
        (fun w => w.storage) =
      (f.write (AsMutBytes.as_mut s) v).map (AsMutBytes.set_bytes s) ∧
    (@FieldView.new S CopyField g s).try_read =
      g.try_read (AsRefBytes.as_ref s) ∧
    ((@FieldView.new S CopyField g s).try_write v).map
        (fun r => (r.1, r.2.storage)) =
      (g.try_write (AsMutBytes.as_mut s) v).map
        (fun r => (r.1, AsMutBytes.set_bytes s r.2)) := by
  refine ⟨rfl, ?_, rfl, ?_⟩
  · simp only [FieldView.write, FieldView.new, Option.map_map]
    rfl
  · simp only [FieldView.try_write, FieldView.new, Option.map_map]
    rfl
